import Mathlib

/-!
Shallow embedding of the terminal-tetris game engine (src/game.rs).

Pure data and state-passing translation of the Rust engine: the `Game`
struct becomes a Lean structure, each `&mut self` method becomes a
function `Game → Game` (returning the method's result in a product where
the Rust method returns a value).  Machine integers (`u32` counters,
`i16` coordinates) are modelled as `Nat` / `Int`; none of the verified
claims concern wrap-around, and the counters stay far below `2^32` in
any run the spec describes.  The two external effects are modelled
explicitly: the high-score file load becomes a constructor parameter,
and each invocation of the save operation is appended to a trace field.
-/

namespace TerminalTetris

-- ===========================================================================
-- Configuration (src/game.rs lines 8-22)
-- ===========================================================================

def GRID_WIDTH : Nat := 10
def GRID_HEIGHT : Nat := 20
def PREVIEW_COUNT : Nat := 4
def LINES_PER_LEVEL : Nat := 10
def SCORE_SINGLE : Nat := 100
def SCORE_DOUBLE : Nat := 300
def SCORE_TRIPLE : Nat := 500
def SCORE_TETRIS : Nat := 800

-- ===========================================================================
-- Types (src/game.rs lines 28-196)
-- ===========================================================================

structure Position where
  x : Int
  y : Int
deriving DecidableEq, Repr

inductive TetrominoType where
  | I | O | T | S | Z | J | L
deriving DecidableEq, Repr

/-- Literal per-kind rotation tables, as in `TetrominoType::shapes`. -/
def TetrominoType.shapes : TetrominoType → List (List (Int × Int))
  | .I => [[(0, 0), (1, 0), (2, 0), (3, 0)],
           [(0, 0), (0, 1), (0, 2), (0, 3)],
           [(0, 0), (1, 0), (2, 0), (3, 0)],
           [(0, 0), (0, 1), (0, 2), (0, 3)]]
  | .O => [[(0, 0), (1, 0), (0, 1), (1, 1)],
           [(0, 0), (1, 0), (0, 1), (1, 1)],
           [(0, 0), (1, 0), (0, 1), (1, 1)],
           [(0, 0), (1, 0), (0, 1), (1, 1)]]
  | .T => [[(1, 0), (0, 1), (1, 1), (2, 1)],
           [(0, 0), (0, 1), (1, 1), (0, 2)],
           [(0, 0), (1, 0), (2, 0), (1, 1)],
           [(1, 0), (0, 1), (1, 1), (1, 2)]]
  | .S => [[(1, 0), (2, 0), (0, 1), (1, 1)],
           [(0, 0), (0, 1), (1, 1), (1, 2)],
           [(1, 0), (2, 0), (0, 1), (1, 1)],
           [(0, 0), (0, 1), (1, 1), (1, 2)]]
  | .Z => [[(0, 0), (1, 0), (1, 1), (2, 1)],
           [(1, 0), (0, 1), (1, 1), (0, 2)],
           [(0, 0), (1, 0), (1, 1), (2, 1)],
           [(1, 0), (0, 1), (1, 1), (0, 2)]]
  | .J => [[(0, 0), (0, 1), (1, 1), (2, 1)],
           [(0, 0), (1, 0), (0, 1), (0, 2)],
           [(0, 0), (1, 0), (2, 0), (2, 1)],
           [(1, 0), (1, 1), (0, 2), (1, 2)]]
  | .L => [[(2, 0), (0, 1), (1, 1), (2, 1)],
           [(0, 0), (0, 1), (0, 2), (1, 2)],
           [(0, 0), (1, 0), (2, 0), (0, 1)],
           [(0, 0), (1, 0), (1, 1), (1, 2)]]

structure Tetromino where
  tetromino_type : TetrominoType
  position : Position
  rotation : Nat
deriving DecidableEq, Repr

/-- Canonical spawn anchor, as in `Tetromino::new`. -/
def Tetromino.new (t : TetrominoType) : Tetromino :=
  { tetromino_type := t
    position := { x := (GRID_WIDTH : Int) / 2 - 1, y := 0 }
    rotation := 0 }

def Tetromino.new_at (t : TetrominoType) (x y : Int) : Tetromino :=
  { tetromino_type := t, position := { x := x, y := y }, rotation := 0 }

/-- Absolute block positions: anchor plus the offsets of the current
rotation state (`Tetromino::blocks`). -/
def Tetromino.blocks (p : Tetromino) : List Position :=
  let shapes := p.tetromino_type.shapes
  let shape := shapes.getD (p.rotation % shapes.length) []
  shape.map (fun d => { x := p.position.x + d.1, y := p.position.y + d.2 })

def Tetromino.rotated (p : Tetromino) (clockwise : Bool) : Tetromino :=
  let n := p.tetromino_type.shapes.length
  let rotation := if clockwise then (p.rotation + 1) % n else (p.rotation + n - 1) % n
  { p with rotation := rotation }

def Tetromino.moved (p : Tetromino) (dx dy : Int) : Tetromino :=
  { p with position := { x := p.position.x + dx, y := p.position.y + dy } }

inductive CellState where
  | Empty
  | Filled (t : TetrominoType)
deriving DecidableEq, Repr

inductive GameState where
  | Playing | Paused | GameOver
deriving DecidableEq, Repr

inductive GameEvent where
  | PieceMoved
  | PieceRotated
  | PieceLocked
  | LinesCleared (count : Nat)
  | LevelUp (newLevel : Nat)
  | Paused
  | Unpaused
  | GameRestarted
  | GameOver
deriving DecidableEq, Repr

-- ===========================================================================
-- Piece provider (src/game.rs lines 202-231)
-- ===========================================================================

/-- Deterministic model of a `PieceProvider` instance: `stream` lists the
kinds it will hand out and `idx` counts how many have been drawn so far.
`SequencePieceProvider` is the instance with `stream i = pieces[i % len]`;
the built-in random provider corresponds to an arbitrary stream fixed in
advance of the run. -/
structure PieceProvider where
  stream : Nat → TetrominoType
  idx : Nat

def PieceProvider.next_piece (p : PieceProvider) : TetrominoType × PieceProvider :=
  (p.stream p.idx, { p with idx := p.idx + 1 })

/-- The `SequencePieceProvider` variant (cyclic over a caller-supplied list;
the Rust code would panic on an empty list, modelled by a default kind). -/
def sequenceProvider (pieces : List TetrominoType) : PieceProvider :=
  { stream := fun i => pieces.getD (i % pieces.length) TetrominoType.I, idx := 0 }

/-- Draw `n` pieces in order from a provider. -/
def drawPieces : Nat → PieceProvider → List TetrominoType × PieceProvider
  | 0, p => ([], p)
  | n + 1, p =>
    let (k, p1) := p.next_piece
    let (rest, p2) := drawPieces n p1
    (k :: rest, p2)

-- ===========================================================================
-- Game aggregate (src/game.rs lines 237-248)
-- ===========================================================================

structure Game where
  grid : List (List CellState)
  current_piece : Tetromino
  preview_queue : List TetrominoType
  score : Nat
  lines_cleared : Nat
  level : Nat
  high_score : Nat
  state : GameState
  piece_provider : PieceProvider
  events : List GameEvent
  /-- Trace of the values handed to the persistence collaborator's save
  operation (`save_high_score`); the file write itself is external. -/
  saved_scores : List Nat

def emptyRow : List CellState := List.replicate GRID_WIDTH CellState.Empty

def emptyGrid : List (List CellState) := List.replicate GRID_HEIGHT emptyRow

/-- Cell lookup `grid[y][x]`; callers index only after the bounds checks of
`is_valid_position`, mirroring the Rust code. -/
def cellAt (grid : List (List CellState)) (x y : Int) : CellState :=
  (grid.getD y.toNat []).getD x.toNat CellState.Empty

def setCell (grid : List (List CellState)) (y x : Nat) (v : CellState) :
    List (List CellState) :=
  grid.set y ((grid.getD y []).set x v)

/-- Constructor `Game::with_provider`; `loaded` is the value returned by the
external `load_high_score()` call. -/
def Game.with_provider (provider : PieceProvider) (loaded : Nat) : Game :=
  let (queue, provider1) := drawPieces PREVIEW_COUNT provider
  let (current_type, provider2) := provider1.next_piece
  { grid := emptyGrid
    current_piece := Tetromino.new current_type
    preview_queue := queue
    score := 0
    lines_cleared := 0
    level := 1
    high_score := loaded
    state := GameState.Playing
    piece_provider := provider2
    events := []
    saved_scores := [] }

/-- Validity predicate `Game::is_valid_position`: every block in bounds and
on an Empty cell. -/
def Game.is_valid_position (g : Game) (piece : Tetromino) : Bool :=
  piece.blocks.all (fun block =>
    decide (0 ≤ block.x) && decide (block.x < (GRID_WIDTH : Int)) &&
    decide (0 ≤ block.y) && decide (block.y < (GRID_HEIGHT : Int)) &&
    (cellAt g.grid block.x block.y == CellState.Empty))

/-- Commit the current piece into the grid (`Game::lock_piece`).  The Rust
code guards only the row index; the column index is in range for every
piece the game ever locks (a valid piece). -/
def Game.lock_piece (g : Game) : Game :=
  let t := g.current_piece.tetromino_type
  let grid := g.current_piece.blocks.foldl
    (fun grid block =>
      if 0 ≤ block.y ∧ block.y < (GRID_HEIGHT : Int) then
        setCell grid block.y.toNat block.x.toNat (CellState.Filled t)
      else grid)
    g.grid
  { g with grid := grid, events := g.events ++ [GameEvent.PieceLocked] }

/-- Row completeness test used by `clear_lines`. -/
def rowComplete (row : List CellState) : Bool :=
  row.all (fun cell => cell != CellState.Empty)

/-- Number of complete rows of a grid. -/
def countComplete (grid : List (List CellState)) : Nat :=
  (grid.filter rowComplete).length

/-- Scanning loop of `Game::clear_lines`: `y` is the row cursor and `count`
the running cleared counter.  Removing the complete row `y` and inserting a
fresh empty row at index 0 is `emptyRow :: grid.eraseIdx y`; the cursor is
not advanced after a removal.  The Rust code would panic if `grid` had
fewer than `GRID_HEIGHT` rows; that unreachable out-of-range read is
modelled as an incomplete row. -/
def clearLoop (grid : List (List CellState)) (y count : Nat) :
    List (List CellState) × Nat :=
  if hy : y < GRID_HEIGHT then
    match hrow : grid[y]? with
    | some row =>
      if hc : rowComplete row = true then
        clearLoop (emptyRow :: grid.eraseIdx y) y (count + 1)
      else
        clearLoop grid (y + 1) count
    | none => clearLoop grid (y + 1) count
  else
    (grid, count)
termination_by countComplete grid * (GRID_HEIGHT + 1) + (GRID_HEIGHT - y)
decreasing_by
  · have key : ∀ (l : List (List CellState)) (n : Nat) (r : List CellState),
        l[n]? = some r → rowComplete r = true →
        countComplete (l.eraseIdx n) + 1 = countComplete l := by
      intro l
      induction l with
      | nil => intro n r h _; simp at h
      | cons a t ih =>
        intro n r h hr
        cases n with
        | zero =>
          simp at h
          subst h
          simp [countComplete, List.filter_cons, hr]
        | succ m =>
          rw [List.getElem?_cons_succ] at h
          have hih := ih m r h hr
          rw [List.eraseIdx_cons_succ]
          by_cases ha : rowComplete a = true
          · simp only [countComplete, List.filter_cons, ha, if_true, List.length_cons] at hih ⊢
            omega
          · simp only [countComplete, List.filter_cons, ha, if_false, Bool.false_eq_true] at hih ⊢
            omega
    have h1 := key grid y row hrow hc
    have h3 : countComplete (emptyRow :: grid.eraseIdx y) = countComplete (grid.eraseIdx y) := by
      have h2 : rowComplete emptyRow = false := by decide
      simp [countComplete, List.filter_cons, h2]
    simp only [GRID_HEIGHT] at *
    omega
  · simp only [GRID_HEIGHT] at *
    omega
  · simp only [GRID_HEIGHT] at *
    omega

def Game.clear_lines (g : Game) : Game × Nat :=
  let (grid, cleared_count) := clearLoop g.grid 0 0
  let g1 := { g with grid := grid }
  if cleared_count > 0 then
    ({ g1 with events := g1.events ++ [GameEvent.LinesCleared cleared_count] }, cleared_count)
  else (g1, cleared_count)

def Game.add_score (g : Game) (lines : Nat) : Game :=
  let base_score : Nat :=
    match lines with
    | 1 => SCORE_SINGLE
    | 2 => SCORE_DOUBLE
    | 3 => SCORE_TRIPLE
    | 4 => SCORE_TETRIS
    | _ => 0
  let score := g.score + base_score * g.level
  let lines_cleared := g.lines_cleared + lines
  let new_level := lines_cleared / LINES_PER_LEVEL + 1
  if new_level > g.level then
    { g with score := score, lines_cleared := lines_cleared, level := new_level,
             events := g.events ++ [GameEvent.LevelUp new_level] }
  else
    { g with score := score, lines_cleared := lines_cleared }

/-- Spawn from the preview queue (`Game::spawn_next_piece`).  The
`pop_front().unwrap_or_else(random)` fallback only fires on an empty queue,
which the length invariant rules out; it is modelled by a fixed default
kind. -/
def Game.spawn_next_piece (g : Game) : Game :=
  let (next_type, rest) :=
    match g.preview_queue with
    | [] => (TetrominoType.I, ([] : List TetrominoType))
    | k :: rest => (k, rest)
  let (fresh, provider) := g.piece_provider.next_piece
  let current_piece := Tetromino.new next_type
  let g1 := { g with preview_queue := rest ++ [fresh]
                     current_piece := current_piece
                     piece_provider := provider }
  if g1.is_valid_position current_piece then g1
  else
    let g2 := { g1 with state := GameState.GameOver
                        events := g1.events ++ [GameEvent.GameOver] }
    if g2.score > g2.high_score then
      { g2 with high_score := g2.score, saved_scores := g2.saved_scores ++ [g2.score] }
    else g2

def Game.move_piece (g : Game) (dx dy : Int) : Game × Bool :=
  if g.state ≠ GameState.Playing then (g, false)
  else
    let moved := g.current_piece.moved dx dy
    if g.is_valid_position moved then
      ({ g with current_piece := moved, events := g.events ++ [GameEvent.PieceMoved] }, true)
    else (g, false)

/-- Wall-kick offsets tried by `rotate_piece`, in source order. -/
def kicks : List (Int × Int) := [(1, 0), (-1, 0), (0, -1), (2, 0), (-2, 0)]

/-- A kick offset applied to the rotated candidate's anchor. -/
def kickedPiece (rotated : Tetromino) (d : Int × Int) : Tetromino :=
  { rotated with position := { x := rotated.position.x + d.1, y := rotated.position.y + d.2 } }

def Game.rotate_piece (g : Game) (clockwise : Bool) : Game × Bool :=
  if g.state ≠ GameState.Playing then (g, false)
  else
    let rotated := g.current_piece.rotated clockwise
    if g.is_valid_position rotated then
      ({ g with current_piece := rotated, events := g.events ++ [GameEvent.PieceRotated] }, true)
    else
      match kicks.find? (fun d => g.is_valid_position (kickedPiece rotated d)) with
      | some d =>
        ({ g with current_piece := kickedPiece rotated d,
                  events := g.events ++ [GameEvent.PieceRotated] }, true)
      | none => (g, false)

/-- The `while self.move_piece(0, 1) {}` loop of `hard_drop`. -/
def Game.dropLoop (g : Game) : Game :=
  let step := g.move_piece 0 1
  if h : step.2 = true then step.1.dropLoop else step.1
termination_by (20 - g.current_piece.position.y).toNat
decreasing_by
  have hshape : ∀ (t : TetrominoType) (m : Fin 4),
      ∃ p ∈ t.shapes.getD m.val [], p.2 = 0 := by
    intro t m
    cases t <;> fin_cases m <;> decide
  have hbound : ∀ (gg : Game) (p : Tetromino),
      gg.is_valid_position p = true → p.position.y ≤ 19 := by
    intro gg p hv
    have hlen : p.tetromino_type.shapes.length = 4 := by
      cases p.tetromino_type <;> rfl
    have hm : p.rotation % p.tetromino_type.shapes.length < 4 := by
      rw [hlen]; omega
    obtain ⟨off, hmem, hoff⟩ :=
      hshape p.tetromino_type ⟨p.rotation % p.tetromino_type.shapes.length, hm⟩
    have hblk : ({ x := p.position.x + off.1, y := p.position.y + off.2 } : Position)
        ∈ p.blocks := by
      simp only [Tetromino.blocks]
      exact List.mem_map_of_mem _ hmem
    have hall := List.all_eq_true.mp hv _ hblk
    simp only [Bool.and_eq_true, decide_eq_true_eq, GRID_HEIGHT] at hall
    have hy : p.position.y + off.2 < (20 : Int) := hall.1.2
    omega
  have hchar : ∀ g1 : Game, (g1.move_piece 0 1).2 = true →
      (g1.move_piece 0 1).1.current_piece = g1.current_piece.moved 0 1 ∧
      g1.is_valid_position (g1.current_piece.moved 0 1) = true := by
    intro g1 h1
    by_cases hs : g1.state ≠ GameState.Playing
    · simp [Game.move_piece, hs] at h1
    · by_cases hv : g1.is_valid_position (g1.current_piece.moved 0 1) = true
      · simp [Game.move_piece, hs, hv]
      · simp [Game.move_piece, hs, hv] at h1
  obtain ⟨hpiece, hvalid⟩ := hchar g h
  have h19 := hbound g _ hvalid
  rw [hpiece]
  simp only [Tetromino.moved] at h19 ⊢
  omega

def Game.lock_and_spawn (g : Game) : Game :=
  let g1 := g.lock_piece
  let (g2, lines) := g1.clear_lines
  let g3 := if lines > 0 then g2.add_score lines else g2
  g3.spawn_next_piece

def Game.hard_drop (g : Game) : Game :=
  if g.state ≠ GameState.Playing then g
  else
    let g1 := g.dropLoop
    let g2 := { g1 with events := g1.events.filter (fun e => e != GameEvent.PieceMoved) }
    g2.lock_and_spawn

def Game.soft_drop (g : Game) : Game :=
  if g.state ≠ GameState.Playing then g
  else
    let (g1, ok) := g.move_piece 0 1
    if ok then g1 else g1.lock_and_spawn

def Game.tick (g : Game) : Game :=
  if g.state ≠ GameState.Playing then g
  else
    let (g1, ok) := g.move_piece 0 1
    if ok then g1 else g1.lock_and_spawn

def Game.toggle_pause (g : Game) : Game :=
  match g.state with
  | GameState.Playing =>
    { g with state := GameState.Paused, events := g.events ++ [GameEvent.Paused] }
  | GameState.Paused =>
    { g with state := GameState.Playing, events := g.events ++ [GameEvent.Unpaused] }
  | GameState.GameOver => g

def Game.restart (g : Game) : Game :=
  let (queue, provider1) := drawPieces PREVIEW_COUNT g.piece_provider
  let (current_type, provider2) := provider1.next_piece
  { g with grid := emptyGrid
           score := 0
           lines_cleared := 0
           level := 1
           state := GameState.Playing
           events := [GameEvent.GameRestarted]
           preview_queue := queue
           current_piece := Tetromino.new current_type
           piece_provider := provider2 }

/-- Drain the event buffer (`Game::take_events`): returns the updated game
and the drained events. -/
def Game.take_events (g : Game) : Game × List GameEvent :=
  ({ g with events := [] }, g.events)

-- ===========================================================================
-- Sample states used by concrete witnesses
-- ===========================================================================

/-- A provider that always hands out the I piece. -/
def constI : PieceProvider := { stream := fun _ => TetrominoType.I, idx := 0 }

def sampleGame : Game := Game.with_provider constI 0

def fullRow : List CellState := List.replicate GRID_WIDTH (CellState.Filled TetrominoType.T)

/-- Sample state whose bottom row is complete. -/
def gFull : Game := { sampleGame with grid := List.replicate 19 emptyRow ++ [fullRow] }

/-- Sample state where the naive rotation of the current piece collides with
a filled cell but the first wall kick succeeds. -/
def kickGame : Game :=
  { sampleGame with
    grid := setCell emptyGrid 6 6 (CellState.Filled TetrominoType.T)
    current_piece :=
      { tetromino_type := TetrominoType.I, position := { x := 6, y := 5 }, rotation := 0 } }

-- ===========================================================================
-- Reachability and the standing invariants
-- ===========================================================================

/-- States of the engine reachable from construction by the public
operations. -/
inductive Reachable : Game → Prop where
  | init (provider : PieceProvider) (loaded : Nat) :
      Reachable (Game.with_provider provider loaded)
  | move (g : Game) (dx dy : Int) : Reachable g → Reachable (g.move_piece dx dy).1
  | rotate (g : Game) (cw : Bool) : Reachable g → Reachable (g.rotate_piece cw).1
  | softDrop (g : Game) : Reachable g → Reachable g.soft_drop
  | hardDrop (g : Game) : Reachable g → Reachable g.hard_drop
  | tick (g : Game) : Reachable g → Reachable g.tick
  | togglePause (g : Game) : Reachable g → Reachable g.toggle_pause
  | restart (g : Game) : Reachable g → Reachable g.restart
  | drain (g : Game) : Reachable g → Reachable g.take_events.1

/-- Conjunction of the standing invariants: validity of the current piece
outside GameOver, the level/lines equation, and the preview-queue length. -/
def GoodState (g : Game) : Prop :=
  (g.state ≠ GameState.GameOver → g.is_valid_position g.current_piece = true) ∧
  g.level = g.lines_cleared / LINES_PER_LEVEL + 1 ∧
  g.preview_queue.length = PREVIEW_COUNT

-- ===========================================================================
-- Theorems
-- ===========================================================================

/-- Unfolding of the validity predicate into its per-block conditions. -/
theorem valid_pos_true_iff (g : Game) (p : Tetromino) :
    g.is_valid_position p = true ↔
      ∀ b ∈ p.blocks, 0 ≤ b.x ∧ b.x < (GRID_WIDTH : Int) ∧
        0 ≤ b.y ∧ b.y < (GRID_HEIGHT : Int) ∧ cellAt g.grid b.x b.y = CellState.Empty := by
  simp [Game.is_valid_position, List.all_eq_true, and_assoc]

/-- Failure of the validity predicate means some block is out of bounds or
on a non-Empty cell. -/
theorem valid_pos_false_iff (g : Game) (p : Tetromino) :
    g.is_valid_position p = false ↔
      ∃ b ∈ p.blocks, b.x < 0 ∨ (GRID_WIDTH : Int) ≤ b.x ∨
        b.y < 0 ∨ (GRID_HEIGHT : Int) ≤ b.y ∨ cellAt g.grid b.x b.y ≠ CellState.Empty := by
  rw [← Bool.not_eq_true, valid_pos_true_iff]
  constructor
  · intro h
    push_neg at h
    obtain ⟨b, hb, hbad⟩ := h
    refine ⟨b, hb, ?_⟩
    by_contra hc
    push_neg at hc
    obtain ⟨h1, h2, h3, h4, h5⟩ := hc
    exact hbad (by omega) (by omega) (by omega) (by omega) h5
  · rintro ⟨b, hb, hbad⟩ hall
    obtain ⟨h1, h2, h3, h4, h5⟩ := hall b hb
    rcases hbad with h | h | h | h | h
    · omega
    · omega
    · omega
    · omega
    · exact h h5

/-- A failed move leaves the whole engine state unchanged. -/
theorem move_piece_fail (g : Game) (dx dy : Int)
    (h : (g.move_piece dx dy).2 = false) : (g.move_piece dx dy).1 = g := by
  by_cases hs : g.state ≠ GameState.Playing
  · simp [Game.move_piece, hs]
  · by_cases hv : g.is_valid_position (g.current_piece.moved dx dy) = true
    · simp [Game.move_piece, hs, hv] at h
    · simp [Game.move_piece, hs, hv]


/-- C4: while Playing, `move_piece(dx,dy)` fails iff the translated piece has
a block out of bounds or on a non-Empty cell; on failure the whole engine
state is unchanged (in particular piece, board, score, level, lifecycle
state and event buffer) and no event is recorded; on success the current
piece is replaced by the translated piece and exactly one PieceMoved event
is appended. -/
theorem move_piece_spec (g : Game) (dx dy : Int) (h : g.state = GameState.Playing) :
    ((g.move_piece dx dy).2 = false ↔
      ∃ b ∈ (g.current_piece.moved dx dy).blocks,
        b.x < 0 ∨ (GRID_WIDTH : Int) ≤ b.x ∨ b.y < 0 ∨ (GRID_HEIGHT : Int) ≤ b.y ∨
        cellAt g.grid b.x b.y ≠ CellState.Empty) ∧
    ((g.move_piece dx dy).2 = false → (g.move_piece dx dy).1 = g) ∧
    ((g.move_piece dx dy).2 = true →
      (g.move_piece dx dy).1 =
        { g with current_piece := g.current_piece.moved dx dy,
                 events := g.events ++ [GameEvent.PieceMoved] }) := by
  have hs : ¬g.state ≠ GameState.Playing := by simp [h]
  have hsnd : (g.move_piece dx dy).2 = g.is_valid_position (g.current_piece.moved dx dy) := by
    by_cases hv : g.is_valid_position (g.current_piece.moved dx dy) = true
    · simp [Game.move_piece, hs, hv]
    · have hv' : g.is_valid_position (g.current_piece.moved dx dy) = false := by
        simpa using hv
      simp [Game.move_piece, hs, hv']
  refine ⟨?_, fun hf => move_piece_fail g dx dy hf, ?_⟩
  · rw [hsnd, ← valid_pos_false_iff]
  · intro ht
    rw [hsnd] at ht
    simp [Game.move_piece, hs, ht]

/-- Witness for C4 at a concrete state: the downward move from the spawn
position succeeds and appends one PieceMoved event. -/
theorem move_piece_spec_witness :
    sampleGame.state = GameState.Playing ∧
    (sampleGame.move_piece 0 1).2 = true ∧
    (sampleGame.move_piece 0 1).1.events = [GameEvent.PieceMoved] := by
  have h := move_piece_spec sampleGame 0 1 rfl
  have ht : (sampleGame.move_piece 0 1).2 = true := by decide
  refine ⟨rfl, ht, ?_⟩
  rw [h.2.2 ht]
  decide

/-- C5: `add_score(lines)` adds base × level to the score (base 100, 300,
500, 800 for 1-4 lines, 0 otherwise, level taken before any level-up), adds
`lines` to the cleared-lines counter, raises the level to
`linesCleared / LINES_PER_LEVEL + 1` when that exceeds the old level, and
in that case records exactly one LevelUp event carrying the final new
level; otherwise level and events are untouched. -/
theorem add_score_spec (g : Game) (lines : Nat) :
    (g.add_score lines).score = g.score +
      (if lines = 1 then 100 else if lines = 2 then 300 else if lines = 3 then 500
       else if lines = 4 then 800 else 0) * g.level ∧
    (g.add_score lines).lines_cleared = g.lines_cleared + lines ∧
    ((g.lines_cleared + lines) / LINES_PER_LEVEL + 1 > g.level →
      (g.add_score lines).level = (g.lines_cleared + lines) / LINES_PER_LEVEL + 1 ∧
      (g.add_score lines).events =
        g.events ++ [GameEvent.LevelUp ((g.lines_cleared + lines) / LINES_PER_LEVEL + 1)]) ∧
    (¬(g.lines_cleared + lines) / LINES_PER_LEVEL + 1 > g.level →
      (g.add_score lines).level = g.level ∧
      (g.add_score lines).events = g.events) := by
  have hbase :
      (match lines with
        | 1 => SCORE_SINGLE | 2 => SCORE_DOUBLE | 3 => SCORE_TRIPLE
        | 4 => SCORE_TETRIS | _ => 0) =
      (if lines = 1 then 100 else if lines = 2 then 300 else if lines = 3 then 500
       else if lines = 4 then 800 else 0) := by
    rcases lines with _ | _ | _ | _ | _ | n <;>
      simp [SCORE_SINGLE, SCORE_DOUBLE, SCORE_TRIPLE, SCORE_TETRIS]
  by_cases hup : (g.lines_cleared + lines) / LINES_PER_LEVEL + 1 > g.level
  · refine ⟨?_, ?_, fun _ => ⟨?_, ?_⟩, fun hn => absurd hup hn⟩ <;>
      simp [Game.add_score, hup, hbase]
  · refine ⟨?_, ?_, fun hy => absurd hy hup, fun _ => ⟨?_, ?_⟩⟩ <;>
      simp [Game.add_score, hup, hbase]

/-- Witness for C5 at a concrete state: clearing 25 lines from a fresh game
jumps the level straight to 3 with a single LevelUp(3) event. -/
theorem add_score_spec_witness :
    (sampleGame.add_score 25).score = 0 ∧
    (sampleGame.add_score 25).lines_cleared = 25 ∧
    (sampleGame.add_score 25).level = 3 ∧
    (sampleGame.add_score 25).events = [GameEvent.LevelUp 3] := by
  have h := add_score_spec sampleGame 25
  have hup : (sampleGame.lines_cleared + 25) / LINES_PER_LEVEL + 1 > sampleGame.level := by
    decide
  obtain ⟨hs, hl, hlev, -⟩ := h
  obtain ⟨hlev1, hlev2⟩ := hlev hup
  refine ⟨by rw [hs]; decide, by rw [hl]; decide, by rw [hlev1]; decide, by rw [hlev2]; decide⟩

/-- C10: `restart()` keeps the stored high score, the persistence trace and
the provider stream (same provider instance, its cursor advanced by the
five pieces drawn), and resets every other field: fresh empty board, zero
score and lines, level 1, Playing state, a single GameRestarted event, a
preview queue of the provider's next four kinds, and a current piece drawn
from the same provider at the spawn anchor. -/
theorem restart_frame_spec (g : Game) :
    (g.restart).high_score = g.high_score ∧
    (g.restart).saved_scores = g.saved_scores ∧
    (g.restart).piece_provider.stream = g.piece_provider.stream ∧
    (g.restart).piece_provider.idx = g.piece_provider.idx + (PREVIEW_COUNT + 1) ∧
    (g.restart).grid = emptyGrid ∧
    (g.restart).score = 0 ∧
    (g.restart).lines_cleared = 0 ∧
    (g.restart).level = 1 ∧
    (g.restart).state = GameState.Playing ∧
    (g.restart).events = [GameEvent.GameRestarted] ∧
    (g.restart).preview_queue =
      [g.piece_provider.stream g.piece_provider.idx,
       g.piece_provider.stream (g.piece_provider.idx + 1),
       g.piece_provider.stream (g.piece_provider.idx + 2),
       g.piece_provider.stream (g.piece_provider.idx + 3)] ∧
    (g.restart).current_piece =
      Tetromino.new (g.piece_provider.stream (g.piece_provider.idx + 4)) :=
  ⟨rfl, rfl, rfl, rfl, rfl, rfl, rfl, rfl, rfl, rfl, rfl, rfl⟩

/-- C2: while Playing, rotation first tries the naive rotated candidate; if
it is invalid, the five kick offsets are tried in source order against the
rotated candidate's anchor, the first valid one is committed with a single
PieceRotated event, and if none is valid the whole state is returned
unchanged with failure. -/
theorem rotate_kick_order_spec (g : Game) (cw : Bool) (h : g.state = GameState.Playing) :
    (g.is_valid_position (g.current_piece.rotated cw) = true →
      g.rotate_piece cw =
        ({ g with current_piece := g.current_piece.rotated cw,
                  events := g.events ++ [GameEvent.PieceRotated] }, true)) ∧
    (g.is_valid_position (g.current_piece.rotated cw) = false →
      ∀ i, i < kicks.length →
        g.is_valid_position (kickedPiece (g.current_piece.rotated cw) (kicks.getD i (0, 0))) = true →
        (∀ j, j < i →
          g.is_valid_position (kickedPiece (g.current_piece.rotated cw) (kicks.getD j (0, 0))) = false) →
        g.rotate_piece cw =
          ({ g with
              current_piece := kickedPiece (g.current_piece.rotated cw) (kicks.getD i (0, 0)),
              events := g.events ++ [GameEvent.PieceRotated] }, true)) ∧
    (g.is_valid_position (g.current_piece.rotated cw) = false →
      (∀ d ∈ kicks, g.is_valid_position (kickedPiece (g.current_piece.rotated cw) d) = false) →
      g.rotate_piece cw = (g, false)) := by
  have hs : ¬g.state ≠ GameState.Playing := by simp [h]
  have e0 : kicks.getD 0 (0, 0) = (1, 0) := rfl
  have e1 : kicks.getD 1 (0, 0) = (-1, 0) := rfl
  have e2 : kicks.getD 2 (0, 0) = (0, -1) := rfl
  have e3 : kicks.getD 3 (0, 0) = (2, 0) := rfl
  have e4 : kicks.getD 4 (0, 0) = (-2, 0) := rfl
  refine ⟨?_, ?_, ?_⟩
  · intro hv
    simp [Game.rotate_piece, hs, hv]
  · intro hninv i hi hvi hprev
    simp only [kicks, List.length_cons, List.length_nil] at hi
    interval_cases i
    · rw [e0] at hvi ⊢
      simp [Game.rotate_piece, hs, hninv, kicks, List.find?, hvi]
    · rw [e1] at hvi ⊢
      have h0 := hprev 0 (by omega); rw [e0] at h0
      simp [Game.rotate_piece, hs, hninv, kicks, List.find?, hvi, h0]
    · rw [e2] at hvi ⊢
      have h0 := hprev 0 (by omega); rw [e0] at h0
      have h1 := hprev 1 (by omega); rw [e1] at h1
      simp [Game.rotate_piece, hs, hninv, kicks, List.find?, hvi, h0, h1]
    · rw [e3] at hvi ⊢
      have h0 := hprev 0 (by omega); rw [e0] at h0
      have h1 := hprev 1 (by omega); rw [e1] at h1
      have h2 := hprev 2 (by omega); rw [e2] at h2
      simp [Game.rotate_piece, hs, hninv, kicks, List.find?, hvi, h0, h1, h2]
    · rw [e4] at hvi ⊢
      have h0 := hprev 0 (by omega); rw [e0] at h0
      have h1 := hprev 1 (by omega); rw [e1] at h1
      have h2 := hprev 2 (by omega); rw [e2] at h2
      have h3 := hprev 3 (by omega); rw [e3] at h3
      simp [Game.rotate_piece, hs, hninv, kicks, List.find?, hvi, h0, h1, h2, h3]
  · intro hninv hall
    have hfind : kicks.find?
        (fun d => g.is_valid_position (kickedPiece (g.current_piece.rotated cw) d)) = none := by
      rw [List.find?_eq_none]
      intro d hd
      simp [hall d hd]
    simp [Game.rotate_piece, hs, hninv, hfind]

/-- Witness for C2 at a concrete state: the naive clockwise rotation of a
horizontal I piece collides with a filled cell, and the first kick (+1,0)
is adopted. -/
theorem rotate_kick_order_spec_witness :
    kickGame.state = GameState.Playing ∧
    kickGame.is_valid_position (kickGame.current_piece.rotated true) = false ∧
    (kickGame.rotate_piece true).1.current_piece =
      { tetromino_type := TetrominoType.I, position := { x := 7, y := 5 }, rotation := 1 } ∧
    (kickGame.rotate_piece true).2 = true := by
  have hspec := (rotate_kick_order_spec kickGame true rfl).2.1
  have hninv : kickGame.is_valid_position (kickGame.current_piece.rotated true) = false := by
    decide
  have hvi : kickGame.is_valid_position
      (kickedPiece (kickGame.current_piece.rotated true) (kicks.getD 0 (0, 0))) = true := by
    decide
  have heq := hspec hninv 0 (by decide) hvi (fun j hj => absurd hj (by omega))
  rw [heq]
  exact ⟨rfl, hninv, by decide, rfl⟩

/-- C7: `spawn_next_piece` pops the queue front as the new current piece at
the spawn anchor; if that piece is invalid the state becomes GameOver with
exactly one GameOver event appended, the in-memory high score is raised and
the save operation invoked exactly when the score strictly exceeds it;
if the piece is valid, the lifecycle state, events, high score and
persistence trace are untouched. -/
theorem spawn_game_over_spec (g : Game) (k : TetrominoType) (rest : List TetrominoType)
    (hq : g.preview_queue = k :: rest) :
    (g.spawn_next_piece).current_piece = Tetromino.new k ∧
    (g.spawn_next_piece).preview_queue =
      rest ++ [g.piece_provider.stream g.piece_provider.idx] ∧
    (g.is_valid_position (Tetromino.new k) = false →
      (g.spawn_next_piece).state = GameState.GameOver ∧
      (g.spawn_next_piece).events = g.events ++ [GameEvent.GameOver] ∧
      (g.score > g.high_score →
        (g.spawn_next_piece).high_score = g.score ∧
        (g.spawn_next_piece).saved_scores = g.saved_scores ++ [g.score]) ∧
      (¬g.score > g.high_score →
        (g.spawn_next_piece).high_score = g.high_score ∧
        (g.spawn_next_piece).saved_scores = g.saved_scores)) ∧
    (g.is_valid_position (Tetromino.new k) = true →
      (g.spawn_next_piece).state = g.state ∧
      (g.spawn_next_piece).events = g.events ∧
      (g.spawn_next_piece).high_score = g.high_score ∧
      (g.spawn_next_piece).saved_scores = g.saved_scores) := by
  have hcond : ∀ (q : List TetrominoType) (pp : PieceProvider) (cp p : Tetromino),
      ({ g with preview_queue := q, current_piece := cp,
                piece_provider := pp } : Game).is_valid_position p
        = g.is_valid_position p := by
    intro q pp cp p
    simp [Game.is_valid_position]
  by_cases hv : g.is_valid_position (Tetromino.new k) = true
  · refine ⟨?_, ?_, fun hbad => absurd (hv.symm.trans hbad) (by decide), fun _ => ?_⟩ <;>
      simp [Game.spawn_next_piece, hq, PieceProvider.next_piece, hcond, hv]
  · have hv' : g.is_valid_position (Tetromino.new k) = false := by simpa using hv
    by_cases hhs : g.score > g.high_score
    · refine ⟨?_, ?_, fun _ => ⟨?_, ?_, fun _ => ⟨?_, ?_⟩, fun hn => absurd hhs hn⟩,
        fun hgood => absurd hgood hv⟩ <;>
        simp [Game.spawn_next_piece, hq, PieceProvider.next_piece, hcond, hv', hhs]
    · refine ⟨?_, ?_, fun _ => ⟨?_, ?_, fun hy => absurd hy hhs, fun _ => ⟨?_, ?_⟩⟩,
        fun hgood => absurd hgood hv⟩ <;>
        simp [Game.spawn_next_piece, hq, PieceProvider.next_piece, hcond, hv', hhs]

/-- Witness for C7 at a concrete state: spawning from a fresh game pops an I
piece, stays Playing, and records no event. -/
theorem spawn_game_over_spec_witness :
    (sampleGame.spawn_next_piece).current_piece = Tetromino.new TetrominoType.I ∧
    (sampleGame.spawn_next_piece).state = GameState.Playing ∧
    (sampleGame.spawn_next_piece).events = [] := by
  obtain ⟨h1, h2, h3, h4⟩ := spawn_game_over_spec sampleGame TetrominoType.I
    [TetrominoType.I, TetrominoType.I, TetrominoType.I] rfl
  obtain ⟨hst, hev, -, -⟩ := h4 (by decide)
  exact ⟨h1, by rw [hst]; rfl, by rw [hev]; rfl⟩



theorem clearLoop_step_clear (grid : List (List CellState)) (y count : Nat)
    (hy : y < GRID_HEIGHT) (row : List CellState) (hrow : grid[y]? = some row)
    (hc : rowComplete row = true) :
    clearLoop grid y count = clearLoop (emptyRow :: grid.eraseIdx y) y (count + 1) := by
  conv_lhs => rw [clearLoop]
  rw [dif_pos hy]
  split
  next row2 heq =>
    rw [hrow] at heq
    injection heq with h
    subst h
    rw [dif_pos hc]
  next heq =>
    rw [hrow] at heq
    cases heq

theorem clearLoop_step_skip (grid : List (List CellState)) (y count : Nat)
    (hy : y < GRID_HEIGHT) (row : List CellState) (hrow : grid[y]? = some row)
    (hc : rowComplete row = false) :
    clearLoop grid y count = clearLoop grid (y + 1) count := by
  conv_lhs => rw [clearLoop]
  rw [dif_pos hy]
  split
  next row2 heq =>
    rw [hrow] at heq
    injection heq with h
    subst h
    rw [dif_neg (by simp [hc])]
  next heq =>
    rw [hrow] at heq

theorem clearLoop_stop (grid : List (List CellState)) (y count : Nat)
    (hy : ¬y < GRID_HEIGHT) :
    clearLoop grid y count = (grid, count) := by
  rw [clearLoop]
  simp [hy]

theorem cc_cons_true (r : List CellState) (l : List (List CellState))
    (h : rowComplete r = true) : countComplete (r :: l) = countComplete l + 1 := by
  simp [countComplete, List.filter_cons, h]

theorem cc_cons_false (r : List CellState) (l : List (List CellState))
    (h : rowComplete r = false) : countComplete (r :: l) = countComplete l := by
  simp [countComplete, List.filter_cons, h]

theorem cc_eraseIdx (l : List (List CellState)) (n : Nat) (r : List CellState)
    (h : l[n]? = some r) (hr : rowComplete r = true) :
    countComplete (l.eraseIdx n) + 1 = countComplete l := by
  induction l generalizing n with
  | nil => simp at h
  | cons a t ih =>
    cases n with
    | zero =>
      rw [List.getElem?_cons_zero] at h
      injection h with h
      subst h
      rw [List.eraseIdx_cons_zero, cc_cons_true _ _ hr]
    | succ m =>
      rw [List.getElem?_cons_succ] at h
      rw [List.eraseIdx_cons_succ]
      by_cases ha : rowComplete a = true
      · rw [cc_cons_true _ _ ha, cc_cons_true _ _ ha]
        have := ih m h
        omega
      · have ha2 : rowComplete a = false := by simpa using ha
        rw [cc_cons_false _ _ ha2, cc_cons_false _ _ ha2]
        exact ih m h

theorem filter_inc_eraseIdx (l : List (List CellState)) (n : Nat) (r : List CellState)
    (h : l[n]? = some r) (hr : rowComplete r = true) :
    (l.eraseIdx n).filter (fun row => !rowComplete row) =
      l.filter (fun row => !rowComplete row) := by
  induction l generalizing n with
  | nil => simp at h
  | cons a t ih =>
    cases n with
    | zero =>
      rw [List.getElem?_cons_zero] at h
      injection h with h
      subst h
      rw [List.eraseIdx_cons_zero]
      simp [List.filter_cons, hr]
    | succ m =>
      rw [List.getElem?_cons_succ] at h
      rw [List.eraseIdx_cons_succ]
      simp only [List.filter_cons]
      rw [ih m h]

theorem cc_add_inc_length (l : List (List CellState)) :
    countComplete l + (l.filter (fun r => !rowComplete r)).length = l.length := by
  induction l with
  | nil => simp [countComplete]
  | cons a t ih =>
    by_cases ha : rowComplete a = true
    · simp only [countComplete, List.filter_cons, ha, Bool.not_true, if_true, if_false,
        Bool.false_eq_true, List.length_cons] at ih ⊢
      omega
    · have ha2 : rowComplete a = false := by simpa using ha
      simp only [countComplete, List.filter_cons, ha2, Bool.not_false, if_true, if_false,
        Bool.false_eq_true, List.length_cons] at ih ⊢
      omega

theorem clearLoop_spec (grid : List (List CellState)) (y count : Nat) :
    grid.length = GRID_HEIGHT →
    (∀ i, i < y → ∀ row, grid[i]? = some row → rowComplete row = false) →
    clearLoop grid y count =
      (List.replicate (countComplete grid) emptyRow ++
        grid.filter (fun row => !rowComplete row),
       count + countComplete grid) := by
  induction grid, y, count using clearLoop.induct with
  | case1 grid y count hy row hrow hc ih =>
    intro hlen hpre
    have hylt : y < grid.length := (List.getElem?_eq_some.mp hrow).1
    have hemp : rowComplete emptyRow = false := by decide
    have hcc := cc_eraseIdx grid y row hrow hc
    have hccE : countComplete (emptyRow :: grid.eraseIdx y) = countComplete (grid.eraseIdx y) :=
      cc_cons_false _ _ hemp
    have hfil := filter_inc_eraseIdx grid y row hrow hc
    rw [clearLoop_step_clear grid y count hy row hrow hc]
    rw [ih ?hlen2 ?hpre2]
    case hlen2 =>
      simp only [List.length_cons, List.length_eraseIdx, if_pos hylt]
      omega
    case hpre2 =>
      intro i hi r hr
      cases i with
      | zero =>
        rw [List.getElem?_cons_zero] at hr
        injection hr with h
        rw [← h]
        exact hemp
      | succ m =>
        rw [List.getElem?_cons_succ,
            List.getElem?_eraseIdx_of_lt _ _ _ (show m < y by omega)] at hr
        exact hpre m (by omega) r hr
    have hfilE : (emptyRow :: grid.eraseIdx y).filter (fun r => !rowComplete r) =
        emptyRow :: grid.filter (fun r => !rowComplete r) := by
      simp [List.filter_cons, hemp, hfil]
    rw [hfilE, hccE]
    have hsplit : countComplete grid = (countComplete (grid.eraseIdx y)) + 1 := by omega
    rw [hsplit]
    simp only [Prod.mk.injEq]
    constructor
    · rw [List.replicate_succ', List.append_assoc, List.singleton_append]
    · omega
  | case2 grid y count hy row hrow hcn ih =>
    intro hlen hpre
    have hc : rowComplete row = false := by simpa using hcn
    rw [clearLoop_step_skip grid y count hy row hrow hc]
    apply ih hlen
    intro i hi r hr
    by_cases him : i < y
    · exact hpre i him r hr
    · have hiy : i = y := by omega
      subst hiy
      rw [hrow] at hr
      injection hr with h
      rw [← h]
      exact hc
  | case3 grid y count hy hrow ih =>
    intro hlen hpre
    have hle := List.getElem?_eq_none_iff.mp hrow
    rw [← hlen] at hy
    omega
  | case4 grid y count hy =>
    intro hlen hpre
    rw [clearLoop_stop grid y count hy]
    rw [← hlen] at hy
    have hall : ∀ r ∈ grid, rowComplete r = false := by
      intro r hmem
      obtain ⟨n, hn, hr⟩ := List.mem_iff_getElem.mp hmem
      exact hpre n (by omega) r (List.getElem?_eq_some.mpr ⟨hn, hr⟩)
    have hcc0 : countComplete grid = 0 := by
      have : grid.filter rowComplete = [] := by
        rw [List.filter_eq_nil_iff]
        intro a ha
        simp [hall a ha]
      simp [countComplete, this]
    have hfs : grid.filter (fun r => !rowComplete r) = grid := by
      rw [List.filter_eq_self]
      intro a ha
      simp [hall a ha]
    rw [hcc0, hfs]
    simp

theorem filter_inc_getElem (l : List (List CellState)) (i : Nat) (row : List CellState)
    (h : l[i]? = some row) (hr : rowComplete row = false) :
    (l.filter (fun r => !rowComplete r))[
      ((l.take i).filter (fun r => !rowComplete r)).length]? = some row := by
  induction l generalizing i with
  | nil => simp at h
  | cons a t ih =>
    cases i with
    | zero =>
      rw [List.getElem?_cons_zero] at h
      injection h with h
      subst h
      simp [List.filter_cons, hr]
    | succ m =>
      rw [List.getElem?_cons_succ] at h
      rw [List.take_succ_cons]
      by_cases ha : rowComplete a = true
      · simp only [List.filter_cons, ha, Bool.not_true, if_false, Bool.false_eq_true]
        exact ih m h
      · have ha2 : rowComplete a = false := by simpa using ha
        simp only [List.filter_cons, ha2, Bool.not_false, if_true, List.length_cons,
          List.getElem?_cons_succ]
        exact ih m h

theorem shift_index (l : List (List CellState)) (i : Nat) (row : List CellState)
    (h : l[i]? = some row) (hr : rowComplete row = false) :
    countComplete l + ((l.take i).filter (fun r => !rowComplete r)).length
      = i + countComplete (l.drop (i + 1)) := by
  have hilt : i < l.length := (List.getElem?_eq_some.mp h).1
  have hsplit : countComplete l =
      countComplete (l.take (i + 1)) + countComplete (l.drop (i + 1)) := by
    simp only [countComplete]
    conv_rhs => rw [← List.length_append, ← List.filter_append, List.take_append_drop]
  have htlen : (l.take (i + 1)).length = i + 1 := by
    simp only [List.length_take]
    omega
  have hts : l.take (i + 1) = l.take i ++ [row] := by
    rw [List.take_succ, h]
    rfl
  have hsum := cc_add_inc_length (l.take (i + 1))
  rw [htlen] at hsum
  have hTinc : ((l.take (i + 1)).filter (fun r => !rowComplete r)).length
      = ((l.take i).filter (fun r => !rowComplete r)).length + 1 := by
    rw [hts]
    simp [List.filter_append, List.filter_cons, hr]
  omega

theorem shift_result (l : List (List CellState)) (i : Nat) (row : List CellState)
    (h : l[i]? = some row) (hr : rowComplete row = false) :
    (List.replicate (countComplete l) emptyRow ++
      l.filter (fun r => !rowComplete r))[i + countComplete (l.drop (i + 1))]? = some row := by
  rw [← shift_index l i row h hr]
  rw [List.getElem?_append_right (by simp)]
  simp only [List.length_replicate, Nat.add_sub_cancel_left]
  exact filter_inc_getElem l i row h hr

/-- C3: `clear_lines` returns the number of complete rows (rows whose cells
are all non-Empty); the resulting board is the input board with every
complete row removed and that many fresh empty rows inserted at the top;
a LinesCleared(count) event is recorded iff count > 0; and every incomplete
row (its cells in order) ends up shifted down by exactly the number of
cleared rows beneath it. -/
theorem clear_lines_spec (g : Game) (hlen : g.grid.length = GRID_HEIGHT) :
    (g.clear_lines).2 = countComplete g.grid ∧
    (g.clear_lines).1.grid =
      List.replicate (countComplete g.grid) emptyRow ++
        g.grid.filter (fun row => !rowComplete row) ∧
    (countComplete g.grid > 0 →
      (g.clear_lines).1.events =
        g.events ++ [GameEvent.LinesCleared (countComplete g.grid)]) ∧
    (countComplete g.grid = 0 → (g.clear_lines).1.events = g.events) ∧
    (∀ i row, g.grid[i]? = some row → rowComplete row = false →
      ((g.clear_lines).1.grid)[i + countComplete (g.grid.drop (i + 1))]? = some row) := by
  have hloop := clearLoop_spec g.grid 0 0 hlen (fun i hi => absurd hi (by omega))
  have hgrid : (g.clear_lines).1.grid =
      List.replicate (countComplete g.grid) emptyRow ++
        g.grid.filter (fun row => !rowComplete row) := by
    simp only [Game.clear_lines, hloop]
    split <;> rfl
  refine ⟨?_, hgrid, ?_, ?_, ?_⟩
  · simp only [Game.clear_lines, hloop]
    split <;> simp
  · intro hpos
    simp only [Game.clear_lines, hloop]
    rw [if_pos (by omega : 0 + countComplete g.grid > 0)]
    simp
  · intro hzero
    simp only [Game.clear_lines, hloop]
    rw [if_neg (by omega : ¬0 + countComplete g.grid > 0)]
  · intro i row hi hr
    rw [hgrid]
    exact shift_result g.grid i row hi hr


/-- Witness for C3 at a concrete state: clearing a board whose bottom row is
complete removes it, leaves the board empty, and records LinesCleared(1). -/
theorem clear_lines_spec_witness :
    (gFull.clear_lines).2 = 1 ∧
    (gFull.clear_lines).1.grid = emptyGrid ∧
    (gFull.clear_lines).1.events = [GameEvent.LinesCleared 1] := by
  obtain ⟨h1, h2, h3, h4, h5⟩ := clear_lines_spec gFull (by decide)
  have hcc : countComplete gFull.grid = 1 := by decide
  refine ⟨by rw [h1, hcc], ?_, ?_⟩
  · rw [h2, hcc]
    decide
  · have hev := h3 (by rw [hcc]; decide)
    rw [hev, hcc]
    decide

theorem lock_piece_effect (g : Game) :
    (g.lock_piece).events = g.events ++ [GameEvent.PieceLocked] ∧
    (g.lock_piece).level = g.level ∧ (g.lock_piece).lines_cleared = g.lines_cleared ∧
    (g.lock_piece).score = g.score ∧ (g.lock_piece).preview_queue = g.preview_queue ∧
    (g.lock_piece).state = g.state ∧ (g.lock_piece).piece_provider = g.piece_provider ∧
    (g.lock_piece).high_score = g.high_score ∧
    (g.lock_piece).saved_scores = g.saved_scores :=
  ⟨rfl, rfl, rfl, rfl, rfl, rfl, rfl, rfl, rfl⟩

theorem clear_lines_effect (g : Game) :
    ((g.clear_lines).1.level = g.level ∧ (g.clear_lines).1.lines_cleared = g.lines_cleared ∧
     (g.clear_lines).1.score = g.score ∧ (g.clear_lines).1.preview_queue = g.preview_queue ∧
     (g.clear_lines).1.state = g.state ∧ (g.clear_lines).1.current_piece = g.current_piece ∧
     (g.clear_lines).1.piece_provider = g.piece_provider ∧
     (g.clear_lines).1.high_score = g.high_score ∧
     (g.clear_lines).1.saved_scores = g.saved_scores) ∧
    ((g.clear_lines).2 = 0 ∧ (g.clear_lines).1.events = g.events ∨
      ∃ n, 0 < n ∧ (g.clear_lines).2 = n ∧
        (g.clear_lines).1.events = g.events ++ [GameEvent.LinesCleared n]) := by
  rcases hcl : clearLoop g.grid 0 0 with ⟨grid2, n⟩
  by_cases hn : n > 0
  · refine ⟨?_, Or.inr ⟨n, hn, ?_, ?_⟩⟩ <;>
      simp [Game.clear_lines, hcl, hn]
  · have hn0 : n = 0 := by omega
    subst hn0
    refine ⟨?_, Or.inl ⟨?_, ?_⟩⟩ <;>
      simp [Game.clear_lines, hcl]

theorem add_score_effect (g : Game) (lines : Nat) :
    (g.add_score lines).preview_queue = g.preview_queue ∧
    (g.add_score lines).state = g.state ∧
    (g.add_score lines).current_piece = g.current_piece ∧
    (g.add_score lines).grid = g.grid ∧
    (g.add_score lines).piece_provider = g.piece_provider ∧
    (g.add_score lines).high_score = g.high_score ∧
    (g.add_score lines).saved_scores = g.saved_scores ∧
    ((g.add_score lines).events = g.events ∨
      ∃ m, (g.add_score lines).events = g.events ++ [GameEvent.LevelUp m]) := by
  by_cases hup : (g.lines_cleared + lines) / LINES_PER_LEVEL + 1 > g.level
  · refine ⟨?_, ?_, ?_, ?_, ?_, ?_, ?_, Or.inr ⟨(g.lines_cleared + lines) / LINES_PER_LEVEL + 1, ?_⟩⟩ <;>
      simp [Game.add_score, hup]
  · refine ⟨?_, ?_, ?_, ?_, ?_, ?_, ?_, Or.inl ?_⟩ <;>
      simp [Game.add_score, hup]

theorem spawn_effect (g : Game) :
    (g.spawn_next_piece).score = g.score ∧
    (g.spawn_next_piece).lines_cleared = g.lines_cleared ∧
    (g.spawn_next_piece).level = g.level ∧
    ((g.spawn_next_piece).events = g.events ∨
      (g.spawn_next_piece).events = g.events ++ [GameEvent.GameOver]) := by
  rcases hq : g.preview_queue with - | ⟨k, rest⟩ <;>
  · simp only [Game.spawn_next_piece, hq]
    split
    · exact ⟨rfl, rfl, rfl, Or.inl rfl⟩
    · split
      · exact ⟨rfl, rfl, rfl, Or.inr rfl⟩
      · exact ⟨rfl, rfl, rfl, Or.inr rfl⟩

theorem lock_and_spawn_events (g : Game) :
    ∃ ln lv go : List GameEvent,
      (g.lock_and_spawn).events =
        g.events ++ [GameEvent.PieceLocked] ++ ln ++ lv ++ go ∧
      (ln = [] ∨ ∃ n, 0 < n ∧ ln = [GameEvent.LinesCleared n]) ∧
      (lv = [] ∨ ∃ m, lv = [GameEvent.LevelUp m]) ∧
      (go = [] ∨ go = [GameEvent.GameOver]) := by
  obtain ⟨hle, -, -, -, -, -, -, -, -⟩ := lock_piece_effect g
  obtain ⟨-, hcl⟩ := clear_lines_effect g.lock_piece
  rcases hpair : (g.lock_piece).clear_lines with ⟨g2, lines⟩
  rw [hpair] at hcl
  simp only at hcl
  have hmain : g.lock_and_spawn = (if lines > 0 then g2.add_score lines else g2).spawn_next_piece := by
    simp [Game.lock_and_spawn, hpair]
  rcases hcl with ⟨hl0, hev2⟩ | ⟨n, hn, hln, hev2⟩
  · subst hl0
    rw [hmain, if_neg (by omega)]
    obtain ⟨-, -, -, hsp⟩ := spawn_effect g2
    rcases hsp with hsp | hsp <;>
      [refine ⟨[], [], [], ?_, Or.inl rfl, Or.inl rfl, Or.inl rfl⟩;
       refine ⟨[], [], [GameEvent.GameOver], ?_, Or.inl rfl, Or.inl rfl, Or.inr rfl⟩] <;>
      rw [hsp, hev2, hle] <;> simp
  · subst hln
    rw [hmain, if_pos hn]
    obtain ⟨-, -, -, -, -, -, -, hadd⟩ := add_score_effect g2 lines
    obtain ⟨-, -, -, hsp⟩ := spawn_effect (g2.add_score lines)
    rcases hadd with hadd | ⟨m, hadd⟩ <;> rcases hsp with hsp | hsp
    · refine ⟨[GameEvent.LinesCleared lines], [], [], ?_, Or.inr ⟨lines, hn, rfl⟩,
        Or.inl rfl, Or.inl rfl⟩
      rw [hsp, hadd, hev2, hle]
      all_goals simp
    · refine ⟨[GameEvent.LinesCleared lines], [], [GameEvent.GameOver], ?_,
        Or.inr ⟨lines, hn, rfl⟩, Or.inl rfl, Or.inr rfl⟩
      rw [hsp, hadd, hev2, hle]
      all_goals simp
    · refine ⟨[GameEvent.LinesCleared lines], [GameEvent.LevelUp m], [], ?_,
        Or.inr ⟨lines, hn, rfl⟩, Or.inr ⟨m, rfl⟩, Or.inl rfl⟩
      rw [hsp, hadd, hev2, hle]
      all_goals simp
    · refine ⟨[GameEvent.LinesCleared lines], [GameEvent.LevelUp m], [GameEvent.GameOver], ?_,
        Or.inr ⟨lines, hn, rfl⟩, Or.inr ⟨m, rfl⟩, Or.inr rfl⟩
      rw [hsp, hadd, hev2, hle]
      all_goals simp


theorem move_piece_cases (g : Game) (dx dy : Int) :
    ((g.move_piece dx dy).1 = g ∧ (g.move_piece dx dy).2 = false) ∨
    ((g.move_piece dx dy).1 =
        { g with current_piece := g.current_piece.moved dx dy,
                 events := g.events ++ [GameEvent.PieceMoved] } ∧
      (g.move_piece dx dy).2 = true) := by
  by_cases hs : g.state ≠ GameState.Playing
  · left
    constructor <;> simp [Game.move_piece, hs]
  · by_cases hv : g.is_valid_position (g.current_piece.moved dx dy) = true
    · right
      constructor <;> simp [Game.move_piece, hs, hv]
    · left
      constructor <;> simp [Game.move_piece, hs, hv]

theorem dropLoop_eq_of_true (g : Game) (h : (g.move_piece 0 1).2 = true) :
    g.dropLoop = ((g.move_piece 0 1).1).dropLoop := by
  rw [Game.dropLoop]
  simp [h]

theorem dropLoop_eq_of_false (g : Game) (h : (g.move_piece 0 1).2 = false) :
    g.dropLoop = (g.move_piece 0 1).1 := by
  rw [Game.dropLoop]
  simp [h]

theorem move_piece_frame (g : Game) (dx dy : Int) :
    (g.move_piece dx dy).1.grid = g.grid ∧
    (g.move_piece dx dy).1.preview_queue = g.preview_queue ∧
    (g.move_piece dx dy).1.score = g.score ∧
    (g.move_piece dx dy).1.lines_cleared = g.lines_cleared ∧
    (g.move_piece dx dy).1.level = g.level ∧
    (g.move_piece dx dy).1.high_score = g.high_score ∧
    (g.move_piece dx dy).1.state = g.state ∧
    (g.move_piece dx dy).1.piece_provider = g.piece_provider ∧
    (g.move_piece dx dy).1.saved_scores = g.saved_scores := by
  rcases move_piece_cases g dx dy with ⟨h1, -⟩ | ⟨h1, -⟩ <;> rw [h1] <;>
    exact ⟨rfl, rfl, rfl, rfl, rfl, rfl, rfl, rfl, rfl⟩

theorem dropLoop_frame (g : Game) :
    (g.dropLoop).grid = g.grid ∧ (g.dropLoop).preview_queue = g.preview_queue ∧
    (g.dropLoop).score = g.score ∧ (g.dropLoop).lines_cleared = g.lines_cleared ∧
    (g.dropLoop).level = g.level ∧ (g.dropLoop).high_score = g.high_score ∧
    (g.dropLoop).state = g.state ∧ (g.dropLoop).piece_provider = g.piece_provider ∧
    (g.dropLoop).saved_scores = g.saved_scores := by
  induction g using Game.dropLoop.induct with
  | case1 x step hstep ih =>
    have heq : step = x.move_piece 0 1 := rfl
    clear_value step
    subst heq
    rw [dropLoop_eq_of_true x hstep]
    obtain ⟨i1, i2, i3, i4, i5, i6, i7, i8, i9⟩ := ih
    obtain ⟨m1, m2, m3, m4, m5, m6, m7, m8, m9⟩ := move_piece_frame x 0 1
    exact ⟨i1.trans m1, i2.trans m2, i3.trans m3, i4.trans m4, i5.trans m5,
      i6.trans m6, i7.trans m7, i8.trans m8, i9.trans m9⟩
  | case2 x step hstep =>
    have heq : step = x.move_piece 0 1 := rfl
    clear_value step
    subst heq
    have hf : (x.move_piece 0 1).2 = false := by simpa using hstep
    rw [dropLoop_eq_of_false x hf]
    exact move_piece_frame x 0 1

theorem dropLoop_stuck (g : Game) : ((g.dropLoop).move_piece 0 1).2 = false := by
  induction g using Game.dropLoop.induct with
  | case1 x step hstep ih =>
    have heq : step = x.move_piece 0 1 := rfl
    clear_value step
    subst heq
    rw [dropLoop_eq_of_true x hstep]
    exact ih
  | case2 x step hstep =>
    have heq : step = x.move_piece 0 1 := rfl
    clear_value step
    subst heq
    have hf : (x.move_piece 0 1).2 = false := by simpa using hstep
    rw [dropLoop_eq_of_false x hf]
    rcases move_piece_cases x 0 1 with ⟨h1, h2⟩ | ⟨h1, h2⟩
    · rw [h1]
      exact hf
    · rw [h2] at hf
      cases hf

theorem dropLoop_events (g : Game) :
    ∃ k, (g.dropLoop).events = g.events ++ List.replicate k GameEvent.PieceMoved := by
  induction g using Game.dropLoop.induct with
  | case1 x step hstep ih =>
    have heq : step = x.move_piece 0 1 := rfl
    clear_value step
    subst heq
    rcases move_piece_cases x 0 1 with ⟨h1, h2⟩ | ⟨h1, h2⟩
    · rw [h2] at hstep
      cases hstep
    · rw [dropLoop_eq_of_true x hstep]
      obtain ⟨k, hk⟩ := ih
      refine ⟨k + 1, ?_⟩
      rw [hk, h1]
      simp [List.replicate_succ]
  | case2 x step hstep =>
    have heq : step = x.move_piece 0 1 := rfl
    clear_value step
    subst heq
    have hf : (x.move_piece 0 1).2 = false := by simpa using hstep
    rw [dropLoop_eq_of_false x hf]
    rcases move_piece_cases x 0 1 with ⟨h1, h2⟩ | ⟨h1, h2⟩
    · rw [h1]
      exact ⟨0, by simp⟩
    · rw [h2] at hf
      cases hf

theorem hard_drop_eq (g : Game) (h : g.state = GameState.Playing) :
    g.hard_drop = ({ g.dropLoop with
      events := (g.dropLoop).events.filter (fun e => e != GameEvent.PieceMoved) } :
        Game).lock_and_spawn := by
  have hs : ¬g.state ≠ GameState.Playing := by simp [h]
  simp [Game.hard_drop, hs]

theorem dropLoop_filter_events (g : Game) :
    (g.dropLoop).events.filter (fun e => e != GameEvent.PieceMoved)
      = g.events.filter (fun e => e != GameEvent.PieceMoved) := by
  obtain ⟨k, hk⟩ := dropLoop_events g
  rw [hk, List.filter_append]
  simp [List.filter_replicate]

theorem hard_drop_event_discipline (g : Game) (h : g.state = GameState.Playing) :
    ∃ ln lv go : List GameEvent,
      (g.hard_drop).events =
        g.events.filter (fun e => e != GameEvent.PieceMoved) ++
          [GameEvent.PieceLocked] ++ ln ++ lv ++ go ∧
      (ln = [] ∨ ∃ n, 0 < n ∧ ln = [GameEvent.LinesCleared n]) ∧
      (lv = [] ∨ ∃ m, lv = [GameEvent.LevelUp m]) ∧
      (go = [] ∨ go = [GameEvent.GameOver]) ∧
      ((g.dropLoop).move_piece 0 1).2 = false := by
  rw [hard_drop_eq g h]
  obtain ⟨ln, lv, go, hev, hln, hlv, hgo⟩ := lock_and_spawn_events
    ({ g.dropLoop with
        events := (g.dropLoop).events.filter (fun e => e != GameEvent.PieceMoved) } : Game)
  refine ⟨ln, lv, go, ?_, hln, hlv, hgo, dropLoop_stuck g⟩
  rw [hev,
    show ({ g.dropLoop with
        events := (g.dropLoop).events.filter (fun e => e != GameEvent.PieceMoved) } :
          Game).events = g.events.filter (fun e => e != GameEvent.PieceMoved) from
      dropLoop_filter_events g]

theorem hard_drop_no_piece_moved (g : Game) (h : g.state = GameState.Playing) :
    GameEvent.PieceMoved ∉ (g.hard_drop).events := by
  rw [hard_drop_eq g h]
  obtain ⟨ln, lv, go, hev, hln, hlv, hgo⟩ := lock_and_spawn_events
    ({ g.dropLoop with
        events := (g.dropLoop).events.filter (fun e => e != GameEvent.PieceMoved) } : Game)
  rw [hev,
    show ({ g.dropLoop with
        events := (g.dropLoop).events.filter (fun e => e != GameEvent.PieceMoved) } :
          Game).events = g.events.filter (fun e => e != GameEvent.PieceMoved) from
      dropLoop_filter_events g]
  intro hmem
  rcases hln with rfl | ⟨n, hn, rfl⟩ <;> rcases hlv with rfl | ⟨m, rfl⟩ <;>
    rcases hgo with rfl | rfl <;>
    simp [List.mem_filter] at hmem

theorem hard_drop_prior_moved_cex :
    GameEvent.PieceMoved ∈ ((sampleGame.move_piece 0 1).1).events ∧
    ((sampleGame.move_piece 0 1).1).state = GameState.Playing ∧
    GameEvent.PieceMoved ∉ (((sampleGame.move_piece 0 1).1).hard_drop).events :=
  ⟨by decide, rfl, hard_drop_no_piece_moved ((sampleGame.move_piece 0 1).1) rfl⟩

theorem hard_drop_event_discipline_witness :
    sampleGame.state = GameState.Playing ∧
    ∃ ln lv go : List GameEvent,
      (sampleGame.hard_drop).events =
        sampleGame.events.filter (fun e => e != GameEvent.PieceMoved) ++
          [GameEvent.PieceLocked] ++ ln ++ lv ++ go ∧
      (ln = [] ∨ ∃ n, 0 < n ∧ ln = [GameEvent.LinesCleared n]) ∧
      (lv = [] ∨ ∃ m, lv = [GameEvent.LevelUp m]) ∧
      (go = [] ∨ go = [GameEvent.GameOver]) ∧
      ((sampleGame.dropLoop).move_piece 0 1).2 = false :=
  ⟨rfl, hard_drop_event_discipline sampleGame rfl⟩


theorem valid_on_empty (g : Game) (hg : g.grid = emptyGrid) (t : TetrominoType) :
    g.is_valid_position (Tetromino.new t) = true := by
  simp only [Game.is_valid_position, cellAt, hg]
  cases t <;> decide

theorem blocks_length (p : Tetromino) : p.blocks.length = 4 := by
  obtain ⟨t, pos, r⟩ := p
  have h4 : r % 4 = 0 ∨ r % 4 = 1 ∨ r % 4 = 2 ∨ r % 4 = 3 := by omega
  cases t <;> rcases h4 with h | h | h | h <;>
    simp [Tetromino.blocks, TetrominoType.shapes, h]

theorem add_score_level_eq (g : Game) (lines : Nat)
    (h : g.level = g.lines_cleared / LINES_PER_LEVEL + 1) :
    (g.add_score lines).level = (g.add_score lines).lines_cleared / LINES_PER_LEVEL + 1 := by
  by_cases hup : (g.lines_cleared + lines) / LINES_PER_LEVEL + 1 > g.level
  · simp [Game.add_score, hup]
  · have hmono : g.lines_cleared / LINES_PER_LEVEL ≤ (g.lines_cleared + lines) / LINES_PER_LEVEL :=
      Nat.div_le_div_right (Nat.le_add_right _ _)
    simp only [Game.add_score, if_neg hup]
    omega

theorem rotate_piece_cases (g : Game) (cw : Bool) :
    (g.rotate_piece cw).1 = g ∨
    ∃ c : Tetromino, g.is_valid_position c = true ∧
      (g.rotate_piece cw).1 =
        { g with current_piece := c, events := g.events ++ [GameEvent.PieceRotated] } := by
  by_cases hs : g.state ≠ GameState.Playing
  · left
    simp [Game.rotate_piece, hs]
  · by_cases hv : g.is_valid_position (g.current_piece.rotated cw) = true
    · right
      exact ⟨g.current_piece.rotated cw, hv, by simp [Game.rotate_piece, hs, hv]⟩
    · rcases hf : kicks.find?
          (fun d => g.is_valid_position (kickedPiece (g.current_piece.rotated cw) d)) with - | d
      · left
        simp [Game.rotate_piece, hs, hv, hf]
      · right
        refine ⟨kickedPiece (g.current_piece.rotated cw) d, by simpa using List.find?_some hf, ?_⟩
        simp [Game.rotate_piece, hs, hv, hf]

theorem spawn_good (g : Game)
    (hq : g.preview_queue.length = PREVIEW_COUNT)
    (hl : g.level = g.lines_cleared / LINES_PER_LEVEL + 1) :
    GoodState g.spawn_next_piece := by
  rcases hqe : g.preview_queue with - | ⟨k, rest⟩
  · rw [hqe] at hq
    simp [PREVIEW_COUNT] at hq
  · have hrest : rest.length = 3 := by
      rw [hqe] at hq
      simpa [PREVIEW_COUNT] using hq
    simp only [Game.spawn_next_piece, hqe]
    split
    next hv =>
      refine ⟨fun _ => hv, hl, ?_⟩
      simp [hrest, PREVIEW_COUNT]
    next hv =>
      split
      · refine ⟨fun hc => absurd rfl hc, hl, ?_⟩
        simp [hrest, PREVIEW_COUNT]
      · refine ⟨fun hc => absurd rfl hc, hl, ?_⟩
        simp [hrest, PREVIEW_COUNT]

theorem lock_and_spawn_good (g : Game)
    (hq : g.preview_queue.length = PREVIEW_COUNT)
    (hl : g.level = g.lines_cleared / LINES_PER_LEVEL + 1) :
    GoodState g.lock_and_spawn := by
  obtain ⟨-, hlev1, hlc1, -, hpq1, -, -, -, -⟩ := lock_piece_effect g
  rcases hpair : (g.lock_piece).clear_lines with ⟨g2, lines⟩
  obtain ⟨⟨hlev2, hlc2, -, hpq2, -, -, -, -, -⟩, -⟩ := clear_lines_effect g.lock_piece
  rw [hpair] at hlev2 hlc2 hpq2
  simp only at hlev2 hlc2 hpq2
  have hmain : g.lock_and_spawn =
      (if lines > 0 then g2.add_score lines else g2).spawn_next_piece := by
    simp [Game.lock_and_spawn, hpair]
  rw [hmain]
  have hl2 : g2.level = g2.lines_cleared / LINES_PER_LEVEL + 1 := by
    rw [hlev2, hlc2, hlev1, hlc1]
    exact hl
  have hq2 : g2.preview_queue.length = PREVIEW_COUNT := by
    rw [hpq2, hpq1]
    exact hq
  by_cases hn : lines > 0
  · rw [if_pos hn]
    obtain ⟨hpq3, -, -, -, -, -, -, -⟩ := add_score_effect g2 lines
    apply spawn_good
    · rw [hpq3]
      exact hq2
    · exact add_score_level_eq g2 lines hl2
  · rw [if_neg hn]
    exact spawn_good g2 hq2 hl2

theorem move_piece_valid_of_true (g : Game) (dx dy : Int)
    (h : (g.move_piece dx dy).2 = true) :
    g.is_valid_position (g.current_piece.moved dx dy) = true := by
  by_cases hs : g.state ≠ GameState.Playing
  · simp [Game.move_piece, hs] at h
  · by_cases hv : g.is_valid_position (g.current_piece.moved dx dy) = true
    · exact hv
    · simp [Game.move_piece, hs, hv] at h

theorem step_down_good (g : Game) (g1 : Game) (ok : Bool)
    (hp : g.move_piece 0 1 = (g1, ok)) (hgood : GoodState g) :
    GoodState (if ok then g1 else g1.lock_and_spawn) := by
  rcases move_piece_cases g 0 1 with ⟨h1, h2⟩ | ⟨h1, h2⟩ <;> rw [hp] at h1 h2 <;>
    simp only at h1 h2
  · subst h2
    simp only [Bool.false_eq_true, if_false]
    rw [h1]
    exact lock_and_spawn_good g hgood.2.2 hgood.2.1
  · subst h2
    simp only [if_true]
    rw [h1]
    have hv := move_piece_valid_of_true g 0 1 (by rw [hp])
    exact ⟨fun _ => hv, hgood.2.1, hgood.2.2⟩

theorem reachable_good (g : Game) (hr : Reachable g) : GoodState g := by
  induction hr with
  | init provider loaded =>
    exact ⟨fun _ => valid_on_empty _ rfl _,
      (by decide : (1 : Nat) = 0 / LINES_PER_LEVEL + 1), rfl⟩
  | move g dx dy hr ih =>
    rcases move_piece_cases g dx dy with ⟨h1, -⟩ | ⟨h1, h2⟩
    · rw [h1]
      exact ih
    · rw [h1]
      have hv := move_piece_valid_of_true g dx dy h2
      exact ⟨fun _ => hv, ih.2.1, ih.2.2⟩
  | rotate g cw hr ih =>
    rcases rotate_piece_cases g cw with h1 | ⟨c, hvc, h1⟩
    · rw [h1]
      exact ih
    · rw [h1]
      exact ⟨fun _ => hvc, ih.2.1, ih.2.2⟩
  | softDrop g hr ih =>
    by_cases hs : g.state ≠ GameState.Playing
    · have he : g.soft_drop = g := by simp [Game.soft_drop, hs]
      rw [he]
      exact ih
    · rcases hp : g.move_piece 0 1 with ⟨g1, ok⟩
      have he : g.soft_drop = if ok then g1 else g1.lock_and_spawn := by
        simp [Game.soft_drop, hs, hp]
      rw [he]
      exact step_down_good g g1 ok hp ih
  | hardDrop g hr ih =>
    by_cases hs : g.state ≠ GameState.Playing
    · have he : g.hard_drop = g := by simp [Game.hard_drop, hs]
      rw [he]
      exact ih
    · have hplay : g.state = GameState.Playing := not_not.mp hs
      rw [hard_drop_eq g hplay]
      obtain ⟨-, hq2, -, hlc2, hlev2, -, -, -, -⟩ := dropLoop_frame g
      apply lock_and_spawn_good
      · have hq3 : (g.dropLoop).preview_queue.length = PREVIEW_COUNT := by
          rw [hq2]
          exact ih.2.2
        exact hq3
      · have hl3 : (g.dropLoop).level = (g.dropLoop).lines_cleared / LINES_PER_LEVEL + 1 := by
          rw [hlev2, hlc2]
          exact ih.2.1
        exact hl3
  | tick g hr ih =>
    by_cases hs : g.state ≠ GameState.Playing
    · have he : g.tick = g := by simp [Game.tick, hs]
      rw [he]
      exact ih
    · rcases hp : g.move_piece 0 1 with ⟨g1, ok⟩
      have he : g.tick = if ok then g1 else g1.lock_and_spawn := by
        simp [Game.tick, hs, hp]
      rw [he]
      exact step_down_good g g1 ok hp ih
  | togglePause g hr ih =>
    rcases hst : g.state with - | - | -
    · have he : g.toggle_pause =
          { g with state := GameState.Paused, events := g.events ++ [GameEvent.Paused] } := by
        simp [Game.toggle_pause, hst]
      rw [he]
      refine ⟨fun _ => ?_, ih.2.1, ih.2.2⟩
      exact ih.1 (by rw [hst]; simp)
    · have he : g.toggle_pause =
          { g with state := GameState.Playing, events := g.events ++ [GameEvent.Unpaused] } := by
        simp [Game.toggle_pause, hst]
      rw [he]
      refine ⟨fun _ => ?_, ih.2.1, ih.2.2⟩
      exact ih.1 (by rw [hst]; simp)
    · have he : g.toggle_pause = g := by simp [Game.toggle_pause, hst]
      rw [he]
      exact ih
  | restart g hr ih =>
    exact ⟨fun _ => valid_on_empty _ rfl _,
      (by decide : (1 : Nat) = 0 / LINES_PER_LEVEL + 1), rfl⟩
  | drain g hr ih =>
    exact ⟨fun hng => ih.1 hng, ih.2.1, ih.2.2⟩


/-- C6: in every reachable state with LifecycleState = Playing, the validity
predicate holds for the current piece: all four of its blocks are in bounds
and on Empty board cells. -/
theorem playing_piece_valid (g : Game) (hr : Reachable g)
    (hp : g.state = GameState.Playing) :
    g.is_valid_position g.current_piece = true ∧
    g.current_piece.blocks.length = 4 ∧
    ∀ b ∈ g.current_piece.blocks,
      0 ≤ b.x ∧ b.x < (GRID_WIDTH : Int) ∧ 0 ≤ b.y ∧ b.y < (GRID_HEIGHT : Int) ∧
      cellAt g.grid b.x b.y = CellState.Empty := by
  have hv := (reachable_good g hr).1 (by rw [hp]; simp)
  exact ⟨hv, blocks_length _, (valid_pos_true_iff g _).mp hv⟩

/-- Witness for C6 at a concrete reachable state. -/
theorem playing_piece_valid_witness :
    sampleGame.is_valid_position sampleGame.current_piece = true :=
  (playing_piece_valid sampleGame (Reachable.init constI 0) rfl).1

/-- C8: in every reachable state, level equals
linesCleared / LINES_PER_LEVEL + 1. -/
theorem level_lines_invariant (g : Game) (hr : Reachable g) :
    g.level = g.lines_cleared / LINES_PER_LEVEL + 1 :=
  (reachable_good g hr).2.1

/-- Witness for C8 at a concrete reachable state (after a hard drop). -/
theorem level_lines_invariant_witness :
    (sampleGame.hard_drop).level =
      (sampleGame.hard_drop).lines_cleared / LINES_PER_LEVEL + 1 :=
  level_lines_invariant sampleGame.hard_drop
    (Reachable.hardDrop sampleGame (Reachable.init constI 0))

/-- C9: in every reachable state, the preview queue has length exactly
PREVIEW_COUNT = 4. -/
theorem preview_queue_length_invariant (g : Game) (hr : Reachable g) :
    g.preview_queue.length = PREVIEW_COUNT :=
  (reachable_good g hr).2.2

/-- Witness for C9 at a concrete reachable state (after a hard drop, which
spawns from the queue). -/
theorem preview_queue_length_invariant_witness :
    (sampleGame.hard_drop).preview_queue.length = PREVIEW_COUNT :=
  preview_queue_length_invariant sampleGame.hard_drop
    (Reachable.hardDrop sampleGame (Reachable.init constI 0))


end TerminalTetris
